import Mathlib

/- Verification of the Glow-style normalizing flow (src/model.py) and the
discriminator rejection sampler (src/generate.py) of this repository, as a
shallow embedding in Lean.  Tensors of shape (batch, channel, height, width)
are modelled as total real-valued functions of four natural-number indices;
on in-range indices each definition computes exactly what the corresponding
PyTorch code computes, and out-of-range indices (which do not exist on the
real tensors) are passed through unchanged.  Shapes and the failure behavior
of reshaping operations are modelled separately at the shape level, and the
floating-point NaN hazard of the rejection sampler is modelled with an
Option-valued real semantics in which an invalid log argument produces none. -/

/-- Tensors (batch, channel, height, width) as total functions of the four
indices. -/
abbrev Tensor4 : Type := ℕ → ℕ → ℕ → ℕ → ℝ

/-- Per-batch-element running sum of log-determinants (the sldj accumulator
of model.py). -/
abbrev Sldj : Type := ℕ → ℝ

/-- The (tensor, optional sldj) pair threaded through every flow layer;
sldj = none models passing ldj=None. -/
abbrev TPair : Type := Tensor4 × Option Sldj

/-- Broadcast addition of a per-batch log-determinant contribution onto the
optional accumulator (the `sldj = sldj + ldj` lines of model.py, skipped
when the accumulator is None). -/
def sldj_add (l : Option Sldj) (d : Sldj) : Option Sldj :=
  l.map (fun f => fun i => f i + d i)

/-- Broadcast subtraction of a per-batch log-determinant contribution from
the optional accumulator (the `sldj = sldj - ldj` lines of model.py). -/
def sldj_sub (l : Option Sldj) (d : Sldj) : Option Sldj :=
  l.map (fun f => fun i => f i - d i)

/-- model.py squeeze (lines 98-119).  Forward direction (reverse = false):
view (b,c,h,w) as (b,c,h/2,2,w/2,2), permute to (b,c,2,2,h/2,w/2) and
reflatten, so out[i][j*4+a*2+e][p][q] = x[i][j][2p+a][2q+e]; expressed on
the output index k this reads channel k/4 at row 2p + k%4/2, column
2q + k%2.  The reverse direction is the unsqueeze of lines 109-113, the
inverse index transformation. -/
def squeeze (x : Tensor4) : Bool → Tensor4
  | true => fun i j p q => x i (j * 4 + p % 2 * 2 + q % 2) (p / 2) (q / 2)
  | false => fun i k p q => x i (k / 4) (2 * p + k % 4 / 2) (2 * q + k % 2)

/-- Parameters of an ActNorm layer (model.py lines 31-47) in its
initialized state: per-channel bias and logs of shape (1, c, 1, 1), plus
the channel count num_features used by `logs.sum()`. -/
structure ActNormP where
  c : ℕ
  bias : ℕ → ℝ
  logs : ℕ → ℝ

/-- ActNorm.forward (model.py lines 61-96) with fixed (initialized)
parameters.  Forward: center `x + bias` then scale `* exp(logs)`, adding
`logs.sum() * H * W` to the accumulator; reverse: scale by `exp(-logs)`
then un-center, subtracting the same quantity. -/
noncomputable def ActNorm_forward (a : ActNormP) (H W : ℕ) (x : Tensor4)
    (ldj : Option Sldj) : Bool → TPair
  | true =>
      (fun i j p q => x i j p q * Real.exp (-a.logs j) - a.bias j,
       sldj_sub ldj (fun _ => (∑ j ∈ Finset.range a.c, a.logs j) * H * W))
  | false =>
      (fun i j p q => (x i j p q + a.bias j) * Real.exp (a.logs j),
       sldj_add ldj (fun _ => (∑ j ∈ Finset.range a.c, a.logs j) * H * W))

/-- The 1x1 convolution of InvConv (model.py line 364): a per-pixel
matrix-vector product over the first c channels. -/
noncomputable def mixT {c : ℕ} (Wm : Matrix (Fin c) (Fin c) ℝ)
    (x : Tensor4) : Tensor4 :=
  fun i j p q =>
    if h : j < c then Wm.mulVec (fun k : Fin c => x i (k : ℕ) p q) ⟨j, h⟩
    else x i j p q

/-- InvConv.forward (model.py lines 350-366).  The log-determinant
contribution `slogdet(weight)[1] * H * W` is computed from the forward
matrix Wm in both directions (line 352 runs before the direction branch);
forward adds it and convolves with Wm, reverse subtracts it and convolves
with the matrix inverse of Wm (line 359). -/
noncomputable def InvConv_forward {c : ℕ} (Wm : Matrix (Fin c) (Fin c) ℝ)
    (H W' : ℕ) (x : Tensor4) (sldj : Option Sldj) (reverse : Bool) : TPair :=
  let ldj : Sldj := fun _ => Real.log |Wm.det| * H * W'
  match reverse with
  | true => (mixT Wm⁻¹ x, sldj_sub sldj ldj)
  | false => (mixT Wm x, sldj_add sldj ldj)

/-- Zero-padded 2D cross-correlation with a square input of spatial extent
(H, W), kernel (kh, kw), stride 1 and padding pad: the semantics of
nn.Conv2d as used in model.py NN. -/
noncomputable def conv2d (cin kh kw pad H W : ℕ) (w : ℕ → ℕ → ℕ → ℕ → ℝ)
    (b : ℕ → ℝ) (x : Tensor4) : Tensor4 :=
  fun i o p q =>
    (∑ c' ∈ Finset.range cin, ∑ a ∈ Finset.range kh, ∑ e ∈ Finset.range kw,
      w o c' a e *
        (if pad ≤ p + a ∧ p + a - pad < H ∧ pad ≤ q + e ∧ q + e - pad < W
         then x i c' (p + a - pad) (q + e - pad) else 0)) + b o

/-- Elementwise ReLU (F.relu in model.py NN.forward). -/
noncomputable def reluT (x : Tensor4) : Tensor4 :=
  fun i j p q => max (x i j p q) 0

/-- An ActNorm layer applied without log-determinant tracking, as the
normalization layers inside NN are called (ldj defaults to None and
return_ldj is False), with initialized parameters. -/
noncomputable def anApply (a : ActNormP) (x : Tensor4) : Tensor4 :=
  fun i j p q => (x i j p q + a.bias j) * Real.exp (a.logs j)

/-- Parameters of the conditioner sub-network NN (model.py lines 285-312),
in the configuration used by this program (params.batchnorm is False, so
norm_fn is ActNorm): three normalization layers, three bias-free
convolutions and the final biased convolution out_conv whose weights and
bias are zero-initialized at construction (lines 311-312). -/
structure NNP where
  cin : ℕ
  cmid : ℕ
  in_norm : ActNormP
  mid_norm : ActNormP
  out_norm : ActNormP
  in_convW : ℕ → ℕ → ℕ → ℕ → ℝ
  mid_conv1W : ℕ → ℕ → ℕ → ℕ → ℝ
  mid_conv2W : ℕ → ℕ → ℕ → ℕ → ℝ
  out_convW : ℕ → ℕ → ℕ → ℕ → ℝ
  out_convB : ℕ → ℝ

/-- NN.forward (model.py lines 315-330): in_norm, 3x3 conv, ReLU, 3x3 conv,
mid_norm, ReLU, 1x1 conv, out_norm, ReLU, final 3x3 conv with bias.  (The
dead assignment x1 = in_conv(x) of line 317 has no effect and is omitted.) -/
noncomputable def NN_forward (nn : NNP) (H W : ℕ) (x : Tensor4) : Tensor4 :=
  let x0 := anApply nn.in_norm x
  let h1 := reluT (conv2d nn.cin 3 3 1 H W nn.in_convW (fun _ => 0) x0)
  let h2 := conv2d nn.cmid 3 3 1 H W nn.mid_conv1W (fun _ => 0) h1
  let h3 := reluT (anApply nn.mid_norm h2)
  let h4 := conv2d nn.cmid 1 1 0 H W nn.mid_conv2W (fun _ => 0) h3
  let h5 := reluT (anApply nn.out_norm h4)
  conv2d nn.cmid 3 3 1 H W nn.out_convW nn.out_convB h5

/-- Parameters of a Coupling layer (model.py lines 249-262): the
conditioner network and the learned per-channel scale vector. -/
structure CouplingP where
  nn : NNP
  scale : ℕ → ℝ

/-- The identity half x_id of the coupling split (model.py line 265,
`x.chunk(2, dim=1)` with ch channels per half): channels ch, ch+1, ... of
the input. -/
def x_idT (ch : ℕ) (x : Tensor4) : Tensor4 :=
  fun i j p q => x i (ch + j) p q

/-- st = self.nn(x_id) in Coupling.forward (model.py line 267). -/
noncomputable def coup_st (ch H W : ℕ) (cp : CouplingP) (x : Tensor4) : Tensor4 :=
  NN_forward cp.nn H W (x_idT ch x)

/-- s = scale * tanh(st[:, 0::2]) in Coupling.forward (lines 268-269):
channel j of s is the even channel 2j of st, squashed. -/
noncomputable def coup_s (ch H W : ℕ) (cp : CouplingP) (x : Tensor4) : Tensor4 :=
  fun i j p q => cp.scale j * Real.tanh (coup_st ch H W cp x i (2 * j) p q)

/-- t = st[:, 1::2] in Coupling.forward (line 268): channel j of t is the
odd channel 2j+1 of st. -/
noncomputable def coup_t (ch H W : ℕ) (cp : CouplingP) (x : Tensor4) : Tensor4 :=
  fun i j p q => coup_st ch H W cp x i (2 * j + 1) p q

/-- s.flatten(1).sum(-1): the per-batch-element sum of s over its ch
channels and H x W spatial extent (lines 275/279). -/
noncomputable def coup_sum (ch H W : ℕ) (cp : CouplingP) (x : Tensor4) : Sldj :=
  fun i => ∑ j ∈ Finset.range ch, ∑ p ∈ Finset.range H, ∑ q ∈ Finset.range W,
    coup_s ch H W cp x i j p q

/-- Coupling.forward (model.py lines 264-282) for an input with an even
channel count 2*ch: forward maps the changed half to (x_change + t)*exp(s)
and adds sum(s) to the accumulator; reverse maps it to
x_change*exp(-s) - t and subtracts sum(s); the identity half (channels
at and beyond ch) is returned unchanged by the final concatenation. -/
noncomputable def Coupling_forward (ch H W : ℕ) (cp : CouplingP) (x : Tensor4)
    (ldj : Option Sldj) : Bool → TPair
  | true =>
      (fun i j p q =>
         if j < ch then
           x i j p q * Real.exp (-coup_s ch H W cp x i j p q) -
             coup_t ch H W cp x i j p q
         else x i j p q,
       sldj_sub ldj (coup_sum ch H W cp x))
  | false =>
      (fun i j p q =>
         if j < ch then
           (x i j p q + coup_t ch H W cp x i j p q) *
             Real.exp (coup_s ch H W cp x i j p q)
         else x i j p q,
       sldj_add ldj (coup_sum ch H W cp x))

/-- Parameters of one _FlowStep at channel count c (model.py lines
227-234): an ActNorm, an invertible 1x1 convolution weight, and a coupling
layer built for c/2 channels per half. -/
structure FlowStepP (c : ℕ) where
  norm : ActNormP
  convW : Matrix (Fin c) (Fin c) ℝ
  coup : CouplingP

/-- _FlowStep.forward (model.py lines 236-245): norm, conv, coup in the
forward direction and the exact reverse order with each sub-layer reversed
in the reverse direction. -/
noncomputable def FlowStep_forward {c : ℕ} (H W : ℕ) (st : FlowStepP c)
    (x : Tensor4) (sldj : Option Sldj) : Bool → TPair
  | true =>
      let p1 := Coupling_forward (c / 2) H W st.coup x sldj true
      let p2 := InvConv_forward st.convW H W p1.1 p1.2 true
      ActNorm_forward st.norm H W p2.1 p2.2 true
  | false =>
      let p1 := ActNorm_forward st.norm H W x sldj false
      let p2 := InvConv_forward st.convW H W p1.1 p1.2 false
      Coupling_forward (c / 2) H W st.coup p2.1 p2.2 false

/-- The recursive level structure of _Glow (model.py lines 195-209): a
level holds its list of flow steps at channel count c and either is the
terminal level (next = None) or owns a child level at 4*c channels. -/
inductive GlowM : ℕ → Type where
  | leaf : {c : ℕ} → List (FlowStepP c) → GlowM c
  | node : {c : ℕ} → List (FlowStepP c) → GlowM (4 * c) → GlowM c

/-- All flow steps of the level applied in order in the forward direction
(the first loop of _Glow.forward, line 213). -/
noncomputable def steps_fwd {c : ℕ} (H W : ℕ) (steps : List (FlowStepP c))
    (p : TPair) : TPair :=
  List.foldl (fun q st => FlowStep_forward H W st q.1 q.2 false) p steps

/-- All flow steps applied in reversed order with reverse = True (the
`for step in reversed(self.steps)` loop of _Glow.forward, line 222). -/
noncomputable def steps_rev {c : ℕ} (H W : ℕ) (steps : List (FlowStepP c))
    (p : TPair) : TPair :=
  List.foldl (fun q st => FlowStep_forward H W st q.1 q.2 true) p steps.reverse

/-- _Glow.forward (model.py lines 211-224), with H and W the spatial extent
of the level's forward-direction input.  Forward: steps, then an
unconditional squeeze (line 215), then the child level if present.
Reverse: the child level first, then an unconditional unsqueeze (line 221),
then the steps reversed.  Note the terminal level also squeezes. -/
noncomputable def GlowRec_forward {c : ℕ} :
    GlowM c → ℕ → ℕ → Tensor4 → Option Sldj → Bool → TPair
  | GlowM.leaf steps, H, W, x, sldj, false =>
      let p := steps_fwd H W steps (x, sldj)
      (squeeze p.1 false, p.2)
  | GlowM.leaf steps, H, W, x, sldj, true =>
      steps_rev H W steps (squeeze x true, sldj)
  | GlowM.node steps next, H, W, x, sldj, false =>
      let p := steps_fwd H W steps (x, sldj)
      GlowRec_forward next (H / 2) (W / 2) (squeeze p.1 false) p.2 false
  | GlowM.node steps next, H, W, x, sldj, true =>
      let p := GlowRec_forward next (H / 2) (W / 2) x sldj true
      steps_rev H W steps (squeeze p.1 true, p.2)

/-- Every InvConv weight matrix in the level tree is invertible. -/
def GlowM.allInv : {c : ℕ} → GlowM c → Prop
  | _, GlowM.leaf steps => ∀ st ∈ steps, IsUnit st.convW.det
  | _, GlowM.node steps next =>
      (∀ st ∈ steps, IsUnit st.convW.det) ∧ next.allInv

/-- self.alpha = 1e-6 of LogitTransform (model.py line 131). -/
noncomputable def alphaC : ℝ := 1 / 1000000

/-- s = alpha + (1 - 2*alpha) * x (model.py lines 138/151). -/
noncomputable def logit_s (v : ℝ) : ℝ := alphaC + (1 - 2 * alphaC) * v

/-- LogitTransform._logdetgrad (model.py lines 150-154). -/
noncomputable def logit_ldg (v : ℝ) : ℝ :=
  -Real.log (logit_s v - logit_s v * logit_s v) + Real.log (1 - 2 * alphaC)

/-- The per-batch sum of _logdetgrad over the (C, H, W) entries of the
input (the .view(B,-1).sum(1) of lines 142/148). -/
noncomputable def logit_sum (C H W : ℕ) (x : Tensor4) : Sldj :=
  fun i => ∑ j ∈ Finset.range C, ∑ p ∈ Finset.range H, ∑ q ∈ Finset.range W,
    logit_ldg (x i j p q)

/-- LogitTransform.forward, forward direction (model.py lines 138-142):
y = log(s) - log(1 - s) with the _logdetgrad sum added per batch element. -/
noncomputable def Logit_forward (C H W : ℕ) (x : Tensor4)
    (sldj : Option Sldj) : TPair :=
  (fun i j p q =>
     Real.log (logit_s (x i j p q)) - Real.log (1 - logit_s (x i j p q)),
   sldj_add sldj (logit_sum C H W x))

/-- torch.sigmoid. -/
noncomputable def sigmoidR (v : ℝ) : ℝ := 1 / (1 + Real.exp (-v))

/-- The tensor recovered by LogitTransform.inverse (model.py line 145):
x = (sigmoid(y) - alpha) / (1 - 2*alpha). -/
noncomputable def logit_recover (y : Tensor4) : Tensor4 :=
  fun i j p q => (sigmoidR (y i j p q) - alphaC) / (1 - 2 * alphaC)

/-- The accumulator update of model.py line 148: LogitTransform.inverse
subtracts `_logdetgrad(x).view(B,-1).sum(1, keepdim=True)` — a (B, 1)
tensor — from the (B,)-shaped accumulator.  PyTorch broadcasting aligns
trailing dimensions, so (B,) minus (B, 1) yields a (B, B) tensor whose
entry (i, k) is sldj[k] - d[i], the keepdim sum indexing the rows.  (The
forward direction, line 142, ends in .view(-1) and keeps the accumulator
(B,)-shaped; the inverse direction does not.) -/
def sldj_sub_keepdim (l : Option Sldj) (d : Sldj) : Option (ℕ → ℕ → ℝ) :=
  l.map (fun f => fun i k => f k - d i)

/-- LogitTransform.inverse (model.py lines 144-148): recover x, then
subtract the keepdim _logdetgrad sum evaluated at the recovered x — which
broadcasts the (B,)-shaped accumulator to the (B, B) matrix described at
sldj_sub_keepdim. -/
noncomputable def Logit_inverse (C H W : ℕ) (y : Tensor4)
    (sldj : Option Sldj) : Tensor4 × Option (ℕ → ℕ → ℝ) :=
  (logit_recover y,
   sldj_sub_keepdim sldj (logit_sum C H W (logit_recover y)))

/-- Glow.forward with reverse=False (model.py lines 176-180), with
(C, H, W) the image shape: logit transform, one squeeze, then the level
stack (whose forward-input spatial extent is H/2 x W/2).  The accumulator
stays a (B,)-shaped vector throughout this direction. -/
noncomputable def Glow_forward {c : ℕ} (g : GlowM c) (C H W : ℕ)
    (x : Tensor4) (sldj : Option Sldj) : TPair :=
  let p := Logit_forward C H W x sldj
  GlowRec_forward g (H / 2) (W / 2) (squeeze p.1 false) p.2 false

/-- Glow.forward with reverse=True (model.py lines 176 and 180-184): the
level stack, one unsqueeze, then LogitTransform.inverse.  Because the
final step is the keepdim subtraction of line 148, this direction returns
the broadcast (B, B)-shaped accumulator, not a (B,)-shaped one. -/
noncomputable def Glow_reverse {c : ℕ} (g : GlowM c) (C H W : ℕ)
    (x : Tensor4) (sldj : Option Sldj) : Tensor4 × Option (ℕ → ℕ → ℝ) :=
  let p := GlowRec_forward g (H / 2) (W / 2) x sldj true
  Logit_inverse C H W (squeeze p.1 true) p.2

/-- The full mutable state of an ActNorm layer (model.py lines 38-47): the
one-shot is_initialized buffer, the parameters, and the construction
hyperparameters num_features and scale (eps is the constant 1e-6). -/
structure ActNormState where
  num_features : ℕ
  scale : ℝ
  is_initialized : Bool
  bias : ℕ → ℝ
  logs : ℕ → ℝ

/-- mean_dim over dims [0, 2, 3] (model.py lines 8-28 as called at lines
54-55): per-channel mean over batch and both spatial axes. -/
noncomputable def mean_dim023 (B H W : ℕ) (x : Tensor4) (j : ℕ) : ℝ :=
  (∑ i ∈ Finset.range B, ∑ p ∈ Finset.range H, ∑ q ∈ Finset.range W,
    x i j p q) / ((B : ℝ) * H * W)

/-- ActNorm.initialize_parameters (model.py lines 49-59): a no-op outside
training mode; in training mode it sets bias to the negative per-channel
mean, logs to log(scale / (sqrt(v) + 1e-6)) with v the per-channel variance
around that mean, and bumps the one-shot flag. -/
noncomputable def init_parameters (training : Bool) (B H W : ℕ) (x : Tensor4)
    (s : ActNormState) : ActNormState :=
  if training then
    let b : ℕ → ℝ := fun j => -mean_dim023 B H W x j
    { s with
      bias := b,
      logs := fun j =>
        Real.log (s.scale /
          (Real.sqrt (mean_dim023 B H W
              (fun i j' p q => (x i j' p q + b j') ^ 2) j) + 1 / 1000000)),
      is_initialized := true }
  else s

/-- ActNorm.forward including its state (model.py lines 83-96): if the
one-shot flag is not yet set, initialize_parameters runs on the incoming
batch (a no-op outside training mode), and the affine transform is then
applied with the resulting parameters.  Returns (output, accumulator,
state after the call). -/
noncomputable def ActNormS_forward (training : Bool) (B H W : ℕ)
    (x : Tensor4) (ldj : Option Sldj) (reverse : Bool) (s : ActNormState) :
    Tensor4 × Option Sldj × ActNormState :=
  let s' := if s.is_initialized then s else init_parameters training B H W x s
  let p := ActNorm_forward ⟨s'.num_features, s'.bias, s'.logs⟩ H W x ldj reverse
  (p.1, p.2, s')

/-- Shapes (batch, channel, height, width). -/
abbrev Shape4 : Type := ℕ × ℕ × ℕ × ℕ

/-- Shape semantics of the squeeze direction of model.py squeeze (lines
114-118): the view of line 116 requires the element count b*c*h*w to equal
b*c*(h//2)*2*(w//2)*2 (PyTorch view raises a size-mismatch error
otherwise, modelled as none); on success the result has shape
(b, c*2*2, h//2, w//2) per line 118. -/
def squeeze_shape (s : Shape4) : Option Shape4 :=
  match s with
  | (b, c, h, w) =>
      if b * c * h * w = b * c * (h / 2) * 2 * (w / 2) * 2 then
        some (b, c * 2 * 2, h / 2, w / 2)
      else none

/-- The sizes of the two pieces of torch.chunk(2, dim=1) on C channels:
the first chunk takes ceil(C/2) channels, the second the rest.  For odd C
the halves are unequal; no error is raised. -/
def chunk2 (C : ℕ) : ℕ × ℕ := ((C + 1) / 2, C - (C + 1) / 2)

/-- PyTorch broadcasting of one dimension: sizes must be equal or one of
them must be 1; otherwise the elementwise op raises (none). -/
def broadcast2 (m n : ℕ) : Option ℕ :=
  if m = n then some m else if m = 1 then some n else if n = 1 then some m
  else none

/-- Shape semantics of Coupling.forward (model.py lines 264-282) for a
coupling layer built with ch channels per half (in_channels // 2 at line
234): chunk the C input channels into (ceil(C/2), C - ceil(C/2)); the
conditioner's first convolution requires the identity half to carry
exactly ch channels; st then has 2*ch channels, s the even and t the odd
ones (ceil and floor of half); the affine update broadcasts x_change
against t and then against s, and the concatenation of line 281 returns
the broadcast result next to the identity half.  No evenness check is ever
made on C. -/
def coupling_fwd_shape (ch : ℕ) (s : Shape4) : Option Shape4 :=
  match s with
  | (b, C, h, w) =>
      let chg := (C + 1) / 2
      let idc := C - (C + 1) / 2
      if idc = ch then
        let stc := 2 * ch
        let sc := (stc + 1) / 2
        let tc := stc / 2
        match broadcast2 chg tc with
        | none => none
        | some c1 =>
            match broadcast2 c1 sc with
            | none => none
            | some c2 => some (b, c2 + idc, h, w)
      else none

/-- Shape semantics of one _FlowStep (model.py lines 227-245): ActNorm,
InvConv and Coupling all preserve the (b, C, h, w) shape, and all three
require the runtime channel count to equal the construction channel count
c (the ActNorm parameters, the c x c convolution weight and the
conditioner all have size fixed at construction). -/
def flow_step_shape (c : ℕ) (s : Shape4) : Option Shape4 :=
  match s with
  | (b, C, h, w) => if C = c then some (b, C, h, w) else none

/-- Shape semantics of the n flow steps of one level. -/
def steps_shape (n c : ℕ) (s : Shape4) : Option Shape4 :=
  match n with
  | 0 => some s
  | n + 1 => (flow_step_shape c s).bind (steps_shape n c)

/-- Shape semantics of _Glow.forward (model.py lines 211-224) for a level
tree built with num_levels = L, num_steps = n and in_channels = c: every
level, the terminal one included, applies its steps and then one squeeze
(line 215 is unconditional); a level built with num_levels > 1 then
recurses into its child at 4*c channels. -/
def levels_shape : ℕ → ℕ → ℕ → Shape4 → Option Shape4
  | 0, n, c, s => (steps_shape n c s).bind squeeze_shape
  | 1, n, c, s => (steps_shape n c s).bind squeeze_shape
  | (l + 2), n, c, s =>
      ((steps_shape n c s).bind squeeze_shape).bind
        (levels_shape (l + 1) n (4 * c))

/-- Shape semantics of Glow.forward, forward direction (model.py lines
166-180): the logit transform preserves the shape, one squeeze is applied
(line 179), and the level stack is built with in_channels*4 channels
(line 169). -/
def glow_forward_shape (in_c L n b h w : ℕ) : Option Shape4 :=
  (squeeze_shape (b, in_c, h, w)).bind (levels_shape L n (in_c * 4))

/-- Float semantics for torch.log as used in generate.py drs: a
non-positive argument does not produce a real number (log of a negative
number is NaN, log of zero is -inf; either poisons the downstream
computation in the way modelled here). -/
noncomputable def flog (x : ℝ) : Option ℝ :=
  if 0 < x then some (Real.log x) else none

/-- Float subtraction propagating the invalid value. -/
def osub : Option ℝ → Option ℝ → Option ℝ
  | some a, some b => some (a - b)
  | _, _ => none

/-- torch.sigmoid propagating the invalid value (sigmoid of NaN is NaN). -/
noncomputable def osigmoid : Option ℝ → Option ℝ
  | some a => some (sigmoidR a)
  | none => none

/-- drs (generate.py lines 36-37):
sigmoid(log(pq) - log(M) - log(1 - pq/M*exp(eps_drs)) - gamma_drs). -/
noncomputable def drs (pq M eps_drs gamma_drs : ℝ) : Option ℝ :=
  osigmoid (osub (osub (osub (flog pq) (flog M))
    (flog (1 - pq / M * Real.exp eps_drs))) (some gamma_drs))

/-- An IEEE comparison u < p: false whenever p is invalid (any comparison
with NaN is false). -/
noncomputable def lt_nan (u : ℝ) : Option ℝ → Bool
  | none => false
  | some v => decide (u < v)

/-- One iteration of the generation loop of generate.py (lines 107-117):
after pq is computed, M is updated to max(pq, M) (line 115), p_accept is
computed by drs against the updated M (line 116), and the proposal is
accepted iff a uniform draw u is below p_accept (line 117).  Returns the
updated M and the acceptance decision. -/
noncomputable def gen_step (pq M eps gamma u : ℝ) : ℝ × Bool :=
  let M' := max pq M
  (M', lt_nan u (drs pq M' eps gamma))

lemma sldj_sub_add (l : Option Sldj) (d : Sldj) :
    sldj_sub (sldj_add l d) d = l := by
  cases l with
  | none => rfl
  | some f =>
      simp only [sldj_add, sldj_sub, Option.map_some', Option.some.injEq]
      funext i
      ring

lemma squeeze_rev_fwd (x : Tensor4) : squeeze (squeeze x false) true = x := by
  funext i j p q
  simp only [squeeze]
  have h1 : (j * 4 + p % 2 * 2 + q % 2) / 4 = j := by omega
  have h2 : 2 * (p / 2) + (j * 4 + p % 2 * 2 + q % 2) % 4 / 2 = p := by omega
  have h3 : 2 * (q / 2) + (j * 4 + p % 2 * 2 + q % 2) % 2 = q := by omega
  rw [h1, h2, h3]

lemma squeeze_fwd_rev (x : Tensor4) : squeeze (squeeze x true) false = x := by
  funext i k p q
  simp only [squeeze]
  have h1 : k / 4 * 4 + (2 * p + k % 4 / 2) % 2 * 2 + (2 * q + k % 2) % 2 = k := by
    omega
  have h2 : (2 * p + k % 4 / 2) / 2 = p := by omega
  have h3 : (2 * q + k % 2) / 2 = q := by omega
  rw [h1, h2, h3]

lemma drs_self_none (p eps gamma : ℝ) (hp : 0 < p) (he : 0 < eps) :
    drs p p eps gamma = none := by
  have hlog : flog (1 - p / p * Real.exp eps) = none := by
    have h1 : 1 < Real.exp eps := by
      calc (1 : ℝ) = Real.exp 0 := Real.exp_zero.symm
        _ < Real.exp eps := Real.exp_lt_exp.mpr he
    rw [div_self (ne_of_gt hp)]
    simp only [flog, one_mul]
    rw [if_neg (by linarith)]
  have hX : ∀ X : Option ℝ, osub X none = none := fun X => by
    cases X <;> rfl
  simp only [drs, hlog]
  rw [hX]
  rfl

lemma actnorm_rt (a : ActNormP) (H W : ℕ) (x : Tensor4) (l : Option Sldj) :
    ActNorm_forward a H W (ActNorm_forward a H W x l false).1
      (ActNorm_forward a H W x l false).2 true = (x, l) := by
  simp only [ActNorm_forward]
  refine Prod.ext ?_ (sldj_sub_add l _)
  funext i j p q
  show (x i j p q + a.bias j) * Real.exp (a.logs j) * Real.exp (-a.logs j) -
      a.bias j = x i j p q
  rw [Real.exp_neg, mul_assoc, mul_inv_cancel₀ (Real.exp_ne_zero _), mul_one,
    add_sub_cancel_right]

lemma mixT_inv {c : ℕ} (Wm : Matrix (Fin c) (Fin c) ℝ)
    (h : IsUnit Wm.det) (x : Tensor4) : mixT Wm⁻¹ (mixT Wm x) = x := by
  funext i j p q
  by_cases hj : j < c
  · simp only [mixT, dif_pos hj]
    have hv : (fun k : Fin c =>
        (if h' : (k : ℕ) < c then
          Wm.mulVec (fun m : Fin c => x i (m : ℕ) p q) ⟨(k : ℕ), h'⟩
         else x i (k : ℕ) p q)) =
        Wm.mulVec (fun m : Fin c => x i (m : ℕ) p q) := by
      funext k
      simp only [dif_pos k.isLt, Fin.eta]
    rw [hv, Matrix.mulVec_mulVec, Matrix.nonsing_inv_mul Wm h,
      Matrix.one_mulVec]
  · simp only [mixT, dif_neg hj]

lemma invconv_rt {c : ℕ} (Wm : Matrix (Fin c) (Fin c) ℝ)
    (h : IsUnit Wm.det) (H W' : ℕ) (x : Tensor4) (l : Option Sldj) :
    InvConv_forward Wm H W' (InvConv_forward Wm H W' x l false).1
      (InvConv_forward Wm H W' x l false).2 true = (x, l) := by
  simp only [InvConv_forward]
  exact Prod.ext (mixT_inv Wm h x) (sldj_sub_add l _)

lemma x_idT_coupling_fwd (ch H W : ℕ) (cp : CouplingP) (x : Tensor4)
    (l : Option Sldj) :
    x_idT ch ((Coupling_forward ch H W cp x l false).1) = x_idT ch x := by
  funext i j p q
  show (if ch + j < ch then _ else x i (ch + j) p q) = x i (ch + j) p q
  rw [if_neg (by omega)]

lemma coup_s_fwd (ch H W : ℕ) (cp : CouplingP) (x : Tensor4) (l : Option Sldj) :
    coup_s ch H W cp ((Coupling_forward ch H W cp x l false).1) =
      coup_s ch H W cp x := by
  unfold coup_s coup_st
  rw [x_idT_coupling_fwd]

lemma coup_t_fwd (ch H W : ℕ) (cp : CouplingP) (x : Tensor4) (l : Option Sldj) :
    coup_t ch H W cp ((Coupling_forward ch H W cp x l false).1) =
      coup_t ch H W cp x := by
  unfold coup_t coup_st
  rw [x_idT_coupling_fwd]

lemma coup_sum_fwd (ch H W : ℕ) (cp : CouplingP) (x : Tensor4) (l : Option Sldj) :
    coup_sum ch H W cp ((Coupling_forward ch H W cp x l false).1) =
      coup_sum ch H W cp x := by
  unfold coup_sum
  rw [coup_s_fwd]

lemma coupling_rt (ch H W : ℕ) (cp : CouplingP) (x : Tensor4) (l : Option Sldj) :
    Coupling_forward ch H W cp (Coupling_forward ch H W cp x l false).1
      (Coupling_forward ch H W cp x l false).2 true = (x, l) := by
  have hunf : ∀ (y : Tensor4) (m : Option Sldj),
      Coupling_forward ch H W cp y m true =
        (fun i j p q =>
           if j < ch then
             y i j p q * Real.exp (-coup_s ch H W cp y i j p q) -
               coup_t ch H W cp y i j p q
           else y i j p q,
         sldj_sub m (coup_sum ch H W cp y)) := fun y m => rfl
  rw [hunf, coup_s_fwd, coup_t_fwd, coup_sum_fwd]
  have hF2 : (Coupling_forward ch H W cp x l false).2 =
      sldj_add l (coup_sum ch H W cp x) := rfl
  rw [hF2]
  refine Prod.ext ?_ (sldj_sub_add l _)
  funext i j p q
  show (if j < ch then
      (Coupling_forward ch H W cp x l false).1 i j p q *
        Real.exp (-coup_s ch H W cp x i j p q) - coup_t ch H W cp x i j p q
    else (Coupling_forward ch H W cp x l false).1 i j p q) = x i j p q
  have hF1 : (Coupling_forward ch H W cp x l false).1 i j p q =
      (if j < ch then
        (x i j p q + coup_t ch H W cp x i j p q) *
          Real.exp (coup_s ch H W cp x i j p q)
      else x i j p q) := rfl
  by_cases hj : j < ch
  · rw [if_pos hj, hF1, if_pos hj, Real.exp_neg, mul_assoc,
      mul_inv_cancel₀ (Real.exp_ne_zero _), mul_one, add_sub_cancel_right]
  · rw [if_neg hj, hF1, if_neg hj]

lemma step_rt {c : ℕ} (H W : ℕ) (st : FlowStepP c)
    (h : IsUnit st.convW.det) (x : Tensor4) (l : Option Sldj) :
    FlowStep_forward H W st (FlowStep_forward H W st x l false).1
      (FlowStep_forward H W st x l false).2 true = (x, l) := by
  have hT : ∀ (y : Tensor4) (m : Option Sldj),
      FlowStep_forward H W st y m true =
        ActNorm_forward st.norm H W
          (InvConv_forward st.convW H W
            (Coupling_forward (c / 2) H W st.coup y m true).1
            (Coupling_forward (c / 2) H W st.coup y m true).2 true).1
          (InvConv_forward st.convW H W
            (Coupling_forward (c / 2) H W st.coup y m true).1
            (Coupling_forward (c / 2) H W st.coup y m true).2 true).2
          true := fun y m => rfl
  have hF : FlowStep_forward H W st x l false =
      Coupling_forward (c / 2) H W st.coup
        (InvConv_forward st.convW H W
          (ActNorm_forward st.norm H W x l false).1
          (ActNorm_forward st.norm H W x l false).2 false).1
        (InvConv_forward st.convW H W
          (ActNorm_forward st.norm H W x l false).1
          (ActNorm_forward st.norm H W x l false).2 false).2 false := rfl
  rw [hT, hF, coupling_rt, invconv_rt st.convW h, actnorm_rt]

lemma steps_rt {c : ℕ} (H W : ℕ) (l : List (FlowStepP c))
    (h : ∀ st ∈ l, IsUnit st.convW.det) (p : TPair) :
    steps_rev H W l (steps_fwd H W l p) = p := by
  induction l generalizing p with
  | nil => rfl
  | cons a t ih =>
      have e1 : steps_fwd H W (a :: t) p =
          steps_fwd H W t (FlowStep_forward H W a p.1 p.2 false) := rfl
      have e2 : ∀ q : TPair, steps_rev H W (a :: t) q =
          FlowStep_forward H W a (steps_rev H W t q).1
            (steps_rev H W t q).2 true := by
        intro q
        simp only [steps_rev, List.reverse_cons, List.foldl_append,
          List.foldl_cons, List.foldl_nil]
      rw [e1, e2, ih (fun st hst => h st (List.mem_cons_of_mem a hst)),
        step_rt H W a (h a (List.mem_cons_self a t))]

lemma glowrec_rt {c : ℕ} (g : GlowM c) :
    g.allInv → ∀ (H W : ℕ) (x : Tensor4) (l : Option Sldj),
      GlowRec_forward g H W (GlowRec_forward g H W x l false).1
        (GlowRec_forward g H W x l false).2 true = (x, l) := by
  induction g with
  | leaf steps =>
      intro h H W x l
      have eF : GlowRec_forward (GlowM.leaf steps) H W x l false =
          (squeeze (steps_fwd H W steps (x, l)).1 false,
           (steps_fwd H W steps (x, l)).2) := rfl
      have eT : ∀ (y : Tensor4) (m : Option Sldj),
          GlowRec_forward (GlowM.leaf steps) H W y m true =
            steps_rev H W steps (squeeze y true, m) := fun y m => rfl
      rw [eF, eT, squeeze_rev_fwd, Prod.mk.eta]
      exact steps_rt H W steps h (x, l)
  | node steps next ih =>
      intro h H W x l
      have eF : GlowRec_forward (GlowM.node steps next) H W x l false =
          GlowRec_forward next (H / 2) (W / 2)
            (squeeze (steps_fwd H W steps (x, l)).1 false)
            (steps_fwd H W steps (x, l)).2 false := rfl
      have eT : ∀ (y : Tensor4) (m : Option Sldj),
          GlowRec_forward (GlowM.node steps next) H W y m true =
            steps_rev H W steps
              (squeeze (GlowRec_forward next (H / 2) (W / 2) y m true).1 true,
               (GlowRec_forward next (H / 2) (W / 2) y m true).2) :=
        fun y m => rfl
      rw [eF, eT, ih h.2 (H / 2) (W / 2)
        (squeeze (steps_fwd H W steps (x, l)).1 false)
        (steps_fwd H W steps (x, l)).2]
      rw [squeeze_rev_fwd, Prod.mk.eta]
      exact steps_rt H W steps h.1 (x, l)

lemma one_sub_two_alpha_pos : (0 : ℝ) < 1 - 2 * alphaC := by
  norm_num [alphaC]

lemma sigmoid_logit (s : ℝ) (h0 : 0 < s) (h1 : s < 1) :
    sigmoidR (Real.log s - Real.log (1 - s)) = s := by
  have h1s : (0 : ℝ) < 1 - s := by linarith
  have hexp : Real.exp (-(Real.log s - Real.log (1 - s))) = (1 - s) / s := by
    rw [neg_sub, Real.exp_sub, Real.exp_log h1s, Real.exp_log h0]
  rw [sigmoidR, hexp]
  have hden : 1 + (1 - s) / s = 1 / s := by
    field_simp
  rw [hden, one_div_one_div]

lemma logit_recover_fwd (C H W : ℕ) (x : Tensor4) (l : Option Sldj)
    (hdom : ∀ i j p q, 0 < logit_s (x i j p q) ∧ logit_s (x i j p q) < 1) :
    logit_recover ((Logit_forward C H W x l).1) = x := by
  funext i j p q
  show (sigmoidR (Real.log (logit_s (x i j p q)) -
      Real.log (1 - logit_s (x i j p q))) - alphaC) / (1 - 2 * alphaC) =
    x i j p q
  rw [sigmoid_logit _ (hdom i j p q).1 (hdom i j p q).2]
  rw [logit_s, add_sub_cancel_left,
    mul_div_cancel_left₀ _ (ne_of_gt one_sub_two_alpha_pos)]

lemma logit_inverse_fwd (C H W : ℕ) (x : Tensor4) (l : Option Sldj)
    (hdom : ∀ i j p q, 0 < logit_s (x i j p q) ∧ logit_s (x i j p q) < 1) :
    Logit_inverse C H W (Logit_forward C H W x l).1
      (Logit_forward C H W x l).2 =
      (x, sldj_sub_keepdim (sldj_add l (logit_sum C H W x))
        (logit_sum C H W x)) := by
  have hrec := logit_recover_fwd C H W x l hdom
  have e1 : Logit_inverse C H W (Logit_forward C H W x l).1
      (Logit_forward C H W x l).2 =
      (logit_recover ((Logit_forward C H W x l).1),
       sldj_sub_keepdim (sldj_add l (logit_sum C H W x))
         (logit_sum C H W (logit_recover ((Logit_forward C H W x l).1)))) :=
    rfl
  rw [e1, hrec]

/-- For every level tree with invertible 1x1-convolution weights and every
input in the logit domain, Glow_forward followed by Glow_reverse recovers
the input tensor exactly; the accumulator, however, comes back as the
(B, B) broadcast matrix with entry (i, k) equal to (sldj[k] + L[k]) - L[i],
where L is the per-batch logit log-det-grad sum — its diagonal is the
original accumulator, but for batch size above 1 it is not the original
(B,)-shaped value. -/
lemma glow_rev_fwd {c : ℕ} (g : GlowM c) (C H W : ℕ) (x : Tensor4)
    (sldj : Option Sldj) (hInv : g.allInv)
    (hdom : ∀ i j p q, 0 < logit_s (x i j p q) ∧ logit_s (x i j p q) < 1) :
    Glow_reverse g C H W (Glow_forward g C H W x sldj).1
      (Glow_forward g C H W x sldj).2 =
      (x, sldj_sub_keepdim (sldj_add sldj (logit_sum C H W x))
        (logit_sum C H W x)) := by
  have eF : Glow_forward g C H W x sldj =
      GlowRec_forward g (H / 2) (W / 2)
        (squeeze (Logit_forward C H W x sldj).1 false)
        (Logit_forward C H W x sldj).2 false := rfl
  have eT : ∀ (y : Tensor4) (m : Option Sldj),
      Glow_reverse g C H W y m =
        Logit_inverse C H W
          (squeeze (GlowRec_forward g (H / 2) (W / 2) y m true).1 true)
          (GlowRec_forward g (H / 2) (W / 2) y m true).2 := fun y m => rfl
  rw [eF, eT, glowrec_rt g hInv (H / 2) (W / 2)
    (squeeze (Logit_forward C H W x sldj).1 false)
    (Logit_forward C H W x sldj).2]
  rw [squeeze_rev_fwd]
  exact logit_inverse_fwd C H W x sldj hdom

/-- A conditioner with all-zero parameters, used to build concrete witness
models. -/
noncomputable def nnZero : NNP :=
  ⟨1, 1, ⟨1, fun _ => 0, fun _ => 0⟩, ⟨1, fun _ => 0, fun _ => 0⟩,
   ⟨1, fun _ => 0, fun _ => 0⟩, fun _ _ _ _ => 0, fun _ _ _ _ => 0,
   fun _ _ _ _ => 0, fun _ _ _ _ => 0, fun _ => 0⟩

/-- A concrete flow step at 4 channels with the identity 1x1-convolution
weight. -/
noncomputable def stepOne : FlowStepP 4 :=
  ⟨⟨4, fun _ => 0, fun _ => 0⟩, (1 : Matrix (Fin 4) (Fin 4) ℝ),
   ⟨nnZero, fun _ => 1⟩⟩

/-- A concrete one-level Glow model with one flow step. -/
noncomputable def gOne : GlowM 4 := GlowM.leaf [stepOne]

/-- A batch of two constant images with different values, both inside the
valid domain of the logit preprocessing. -/
noncomputable def xPair : Tensor4 :=
  fun i _ _ _ => if i = 0 then 1 / 2 else 1 / 4

/-- C1: the claimed round-trip identity fails on the code for batch size
above 1.  At the concrete failing input — the two-image batch xPair
through a one-level one-step Glow with identity 1x1-conv weight, zero
accumulator — forward then reverse recovers the input tensor exactly, but
the accumulator comes back as the (B, B) broadcast matrix
(sldj[k] + L[k]) - L[i] produced by model.py line 148's keepdim
subtraction (line 142's .view(-1) is missing there): its diagonal entries
return to 0, yet entry (0, 1), equal to logit_ldg(1/4) - logit_ldg(1/2),
is nonzero — the accumulator does not return to its original value. -/
theorem glow_roundtrip_sldj_broadcast_bug :
    (Glow_reverse gOne 1 1 1
      (Glow_forward gOne 1 1 1 xPair (some fun _ => 0)).1
      (Glow_forward gOne 1 1 1 xPair (some fun _ => 0)).2).1 = xPair ∧
    (Glow_reverse gOne 1 1 1
      (Glow_forward gOne 1 1 1 xPair (some fun _ => 0)).1
      (Glow_forward gOne 1 1 1 xPair (some fun _ => 0)).2).2 =
      some (fun i k => (0 + logit_sum 1 1 1 xPair k) -
        logit_sum 1 1 1 xPair i) ∧
    ((0 : ℝ) + logit_sum 1 1 1 xPair 0) - logit_sum 1 1 1 xPair 0 = 0 ∧
    ((0 : ℝ) + logit_sum 1 1 1 xPair 1) - logit_sum 1 1 1 xPair 1 = 0 ∧
    ((0 : ℝ) + logit_sum 1 1 1 xPair 1) - logit_sum 1 1 1 xPair 0 ≠ 0 := by
  have hdom : ∀ i j p q,
      0 < logit_s (xPair i j p q) ∧ logit_s (xPair i j p q) < 1 := by
    intro i j p q
    by_cases hi : i = 0
    · simp only [xPair, if_pos hi]
      constructor <;> norm_num [logit_s, alphaC]
    · simp only [xPair, if_neg hi]
      constructor <;> norm_num [logit_s, alphaC]
  have hinv : gOne.allInv := by
    show ∀ st ∈ [stepOne], IsUnit st.convW.det
    intro st hst
    rw [List.mem_singleton] at hst
    rw [hst]
    show IsUnit (Matrix.det (1 : Matrix (Fin 4) (Fin 4) ℝ))
    rw [Matrix.det_one]
    exact isUnit_one
  have hmain := glow_rev_fwd gOne 1 1 1 xPair (some fun _ => 0) hinv hdom
  have hL0 : logit_sum 1 1 1 xPair 0 = logit_ldg (1 / 2) := by
    simp [logit_sum, xPair]
  have hL1 : logit_sum 1 1 1 xPair 1 = logit_ldg (1 / 4) := by
    simp [logit_sum, xPair]
  refine ⟨by rw [hmain], by rw [hmain]; rfl, by ring, by ring, ?_⟩
  rw [hL0, hL1, zero_add, sub_ne_zero]
  intro hcontra
  have h2 : Real.log (logit_s (1 / 4 : ℝ) -
        logit_s (1 / 4 : ℝ) * logit_s (1 / 4 : ℝ)) <
      Real.log (logit_s (1 / 2 : ℝ) -
        logit_s (1 / 2 : ℝ) * logit_s (1 / 2 : ℝ)) := by
    apply Real.log_lt_log
    · norm_num [logit_s, alphaC]
    · norm_num [logit_s, alphaC]
  unfold logit_ldg at hcontra
  linarith

/-- C6: squeeze followed by unsqueeze (and unsqueeze followed by squeeze)
is the identity on every tensor, exactly and for every entry — it is a
pure integer reindexing with zero tolerance.  Neither direction takes or
returns a log-determinant accumulator: squeeze (model.py lines 98-119) has
no sldj parameter at all, and its callers pass sldj around it untouched. -/
theorem squeeze_unsqueeze_roundtrip (x : Tensor4) :
    squeeze (squeeze x false) true = x ∧ squeeze (squeeze x true) false = x :=
  ⟨squeeze_rev_fwd x, squeeze_fwd_rev x⟩

/-- C5: for a fixed InvConv weight matrix Wm and fixed spatial size H x W',
the quantity the forward direction adds to the accumulator is exactly
log|det(Wm)| * H * W', and the reverse direction subtracts exactly that
same quantity — computed from the forward matrix Wm in both directions
(model.py line 352 evaluates slogdet(self.weight) before the direction
branch), never from its inverse — so that forward followed by reverse
restores the accumulator exactly. -/
theorem invconv_ldj_consistency {c : ℕ} (Wm : Matrix (Fin c) (Fin c) ℝ)
    (H W' : ℕ) (x y : Tensor4) (sldj sldj' : Sldj) :
    (InvConv_forward Wm H W' x (some sldj) false).2 =
      some (fun i => sldj i + Real.log |Wm.det| * H * W') ∧
    (InvConv_forward Wm H W' y (some sldj') true).2 =
      some (fun i => sldj' i - Real.log |Wm.det| * H * W') ∧
    (InvConv_forward Wm H W' y
      ((InvConv_forward Wm H W' x (some sldj) false).2) true).2 = some sldj :=
  ⟨rfl, rfl, by
    show sldj_sub (sldj_add (some sldj) _) _ = some sldj
    exact sldj_sub_add (some sldj) _⟩

lemma squeeze_shape_odd (b c h w : ℕ) (hb : 0 < b) (hc : 0 < c)
    (hh : 0 < h) (hw : 0 < w) (hodd : h % 2 = 1 ∨ w % 2 = 1) :
    squeeze_shape (b, c, h, w) = none := by
  have hlt : (h / 2) * 2 * ((w / 2) * 2) < h * w := by
    rcases hodd with ho | ho
    · have h1 : h / 2 * 2 < h := by omega
      have h2 : w / 2 * 2 ≤ w := by omega
      calc h / 2 * 2 * (w / 2 * 2) ≤ h / 2 * 2 * w :=
            Nat.mul_le_mul_left _ h2
        _ < h * w := Nat.mul_lt_mul_of_lt_of_le h1 (le_refl w) hw
    · have h1 : h / 2 * 2 ≤ h := by omega
      have h2 : w / 2 * 2 < w := by omega
      calc h / 2 * 2 * (w / 2 * 2) ≤ h * (w / 2 * 2) :=
            Nat.mul_le_mul_right _ h1
        _ < h * w := Nat.mul_lt_mul_of_le_of_lt (le_refl h) h2 hh
  have hne : b * c * h * w ≠ b * c * (h / 2) * 2 * (w / 2) * 2 := by
    have e1 : b * c * (h / 2) * 2 * (w / 2) * 2 =
        b * c * ((h / 2) * 2 * ((w / 2) * 2)) := by ring
    have e2 : b * c * h * w = b * c * (h * w) := by ring
    rw [e1, e2]
    have hbc : 0 < b * c := Nat.mul_pos hb hc
    exact Nat.ne_of_gt (Nat.mul_lt_mul_of_le_of_lt (le_refl (b * c)) hlt hbc)
  simp only [squeeze_shape, if_neg hne]

/-- C8 counterexample: a 3-channel input fed to the coupling layer built
for it (in_channels // 2 = 1 conditioner channel) does not fail at all:
torch.chunk(2, dim=1) silently splits 3 channels into unequal halves of 2
and 1 channels, the conditioner accepts the 1-channel identity half, and
the affine update broadcasts the 1-channel s and t against the 2-channel
changed half, so the forward pass completes and returns a 3-channel
tensor - contradicting "fails fast ... never proceeds with unequal
halves". -/
theorem coupling_odd_channels_proceeds :
    chunk2 3 = (2, 1) ∧
    coupling_fwd_shape 1 (8, 3, 32, 32) = some (8, 3, 32, 32) := by
  exact ⟨rfl, by decide⟩

/-- C8 amended: squeeze does fail fast on odd spatial dimensions — the
tensor view of model.py line 116 raises a size-mismatch error (modelled as
none) for every positive shape with odd height or width.  The coupling
split, however, performs no evenness check: chunk(2) yields unequal halves
for an odd channel count, and the layer proceeds past the split (for a
3-channel input it even completes silently by broadcasting, as the
counterexample shows; only the later elementwise ops can error, and only
for channel counts where broadcasting fails). -/
theorem squeeze_fails_fast_coupling_does_not :
    (∀ b c h w : ℕ, 0 < b → 0 < c → 0 < h → 0 < w →
      (h % 2 = 1 ∨ w % 2 = 1) → squeeze_shape (b, c, h, w) = none) ∧
    chunk2 3 = (2, 1) ∧
    coupling_fwd_shape 1 (8, 3, 32, 32) = some (8, 3, 32, 32) :=
  ⟨squeeze_shape_odd, rfl, by decide⟩

theorem squeeze_fails_fast_witness :
    squeeze_shape (1, 1, 3, 4) = none ∧
    coupling_fwd_shape 1 (8, 3, 32, 32) = some (8, 3, 32, 32) :=
  ⟨squeeze_fails_fast_coupling_does_not.1 1 1 3 4 (by decide) (by decide)
    (by decide) (by decide) (Or.inl (by decide)),
   squeeze_fails_fast_coupling_does_not.2.2⟩

/-- C2 counterexample: the claim's shape is wrong on the code.  For
num_levels = 3, num_steps = 1, in_channels = 1, batch 8 and 32x32 input
the forward pass does not produce shape (8, 4^3, 4, 4) = (8, 64, 4, 4),
because the terminal level also squeezes: _Glow.forward's squeeze at
model.py line 215 is unconditional, so the terminal level does not apply
its steps "directly with no further squeeze" — on a valid even shape its
output differs from its step output's shape. -/
theorem glow_shape_counterexample :
    glow_forward_shape 1 3 1 8 32 32 ≠ some (8, 4 ^ 3, 4, 4) ∧
    levels_shape 1 1 64 (8, 64, 4, 4) ≠ some (8, 64, 4, 4) := by
  constructor
  · decide
  · decide

/-- C2 amended: every level of _Glow, the terminal one included, applies
its FlowSteps and then one squeeze (model.py line 215 is unconditional);
consequently, for a flow built with num_levels = 3, num_steps = 1,
in_channels = 1 on 32x32 input, the forward pass on a batch of 8 images
returns a tensor of shape (8, 4^4, 2, 2) = (8, 256, 2, 2): one squeeze in
Glow.forward plus one per level. -/
theorem glow_shape_terminal_squeeze :
    glow_forward_shape 1 3 1 8 32 32 = some (8, 256, 2, 2) ∧
    levels_shape 1 1 64 (8, 64, 4, 4) = some (8, 256, 2, 2) := by
  constructor
  · decide
  · decide

/-- Corroboration from generate.py: with the configuration of the sampling
script (in_channels = 1, num_levels = log2(32) - 1 = 4), the latent shape
is (b, 1024, 1, 1), which is exactly the shape drawn at generate.py lines
93-96 and 109-112 — consistent with the unconditional terminal squeeze. -/
theorem glow_shape_generate_config :
    glow_forward_shape 1 4 5 256 32 32 = some (256, 1024, 1, 1) := by
  decide

/-- C3: the claim demands that drs never produce NaN/Inf on pq in [0, M]
and that the acceptance probability be clamped; the code has no clamping,
and at the failing input pq = M (reachable: the loop updates M to
max(pq, M) first, so every new-maximum proposal calls drs with pq = M) the
log argument 1 - (pq/M)*exp(eps_drs) equals 1 - exp(eps_drs) < 0 for any
eps_drs > 0, so torch.log receives a negative argument and p_accept is
NaN (modelled as none). -/
theorem drs_nan_at_pq_eq_M (M eps gamma : ℝ) (hM : 0 < M)
    (heps : 0 < eps) : drs M M eps gamma = none :=
  drs_self_none M eps gamma hM heps

theorem drs_nan_witness : drs 10 10 (1 / 1000) (-3) = none :=
  drs_nan_at_pq_eq_M 10 (1 / 1000) (-3) (by norm_num) (by norm_num)

/-- C9: in the generation loop, M is updated to max(pq, M) before p_accept
is computed, so pq is at most the M passed to drs; and whenever pq equals
the updated M (in particular whenever the proposal sets a new maximum,
M ≤ pq), with eps_drs > 0 the drs log argument is negative, p_accept is
NaN (none), the IEEE comparison uniform < NaN is false, and the proposal
is rejected, whatever the uniform draw u. -/
theorem gen_step_rejects_pq_at_max (pq M eps gamma u : ℝ)
    (hpq : 0 < pq) (heps : 0 < eps) :
    pq ≤ (gen_step pq M eps gamma u).1 ∧
    (M ≤ pq → drs pq (gen_step pq M eps gamma u).1 eps gamma = none ∧
      (gen_step pq M eps gamma u).2 = false) := by
  have e1 : (gen_step pq M eps gamma u).1 = max pq M := rfl
  constructor
  · rw [e1]
    exact le_max_left pq M
  · intro hM
    have hnone : drs pq (max pq M) eps gamma = none := by
      rw [max_eq_left hM]
      exact drs_self_none pq eps gamma hpq heps
    refine ⟨by rw [e1]; exact hnone, ?_⟩
    have e2 : (gen_step pq M eps gamma u).2 =
        lt_nan u (drs pq (max pq M) eps gamma) := rfl
    rw [e2, hnone]
    rfl

theorem gen_step_rejects_witness :
    (2 : ℝ) ≤ (gen_step 2 1 (1 / 1000) (-3) 0).1 ∧
    ((1 : ℝ) ≤ 2 →
      drs 2 (gen_step 2 1 (1 / 1000) (-3) 0).1 (1 / 1000) (-3) = none ∧
      (gen_step 2 1 (1 / 1000) (-3) 0).2 = false) :=
  gen_step_rejects_pq_at_max 2 1 (1 / 1000) (-3) 0 (by norm_num)
    (by norm_num)

/-- C4: for an uninitialized ActNorm layer in training mode, the first
forward call sets bias to the negative per-channel mean of that batch,
logs to log(scale / (sqrt(variance) + 1e-6)), and the one-shot flag; a
second forward call — in training mode or not, on any other batch, either
direction — leaves the whole state (bias, logs, flag) unchanged; and a
forward call in inference (non-training) mode on an uninitialized layer
performs no initialization at all. -/
theorem actnorm_one_shot_init (B H W : ℕ) (x1 x2 : Tensor4)
    (s : ActNormState) (l1 l2 : Option Sldj) (r1 r2 t2 : Bool)
    (h : s.is_initialized = false) :
    ((ActNormS_forward true B H W x1 l1 r1 s).2.2.bias =
      fun j => -mean_dim023 B H W x1 j) ∧
    ((ActNormS_forward true B H W x1 l1 r1 s).2.2.logs = fun j =>
      Real.log (s.scale / (Real.sqrt (mean_dim023 B H W
        (fun i j' p q => (x1 i j' p q + -mean_dim023 B H W x1 j') ^ 2) j) +
        1 / 1000000))) ∧
    (ActNormS_forward true B H W x1 l1 r1 s).2.2.is_initialized = true ∧
    (ActNormS_forward t2 B H W x2 l2 r2
      ((ActNormS_forward true B H W x1 l1 r1 s).2.2)).2.2 =
      (ActNormS_forward true B H W x1 l1 r1 s).2.2 ∧
    (ActNormS_forward false B H W x2 l2 r2 s).2.2 = s := by
  have e0 : (ActNormS_forward true B H W x1 l1 r1 s).2.2 =
      init_parameters true B H W x1 s := by
    show (if s.is_initialized then s else init_parameters true B H W x1 s) =
      init_parameters true B H W x1 s
    rw [h]
    rfl
  refine ⟨by rw [e0]; rfl, by rw [e0]; rfl, by rw [e0]; rfl, ?_, ?_⟩
  · have h1 : (ActNormS_forward true B H W x1 l1 r1 s).2.2.is_initialized =
        true := by rw [e0]; rfl
    show (if (ActNormS_forward true B H W x1 l1 r1 s).2.2.is_initialized
        then (ActNormS_forward true B H W x1 l1 r1 s).2.2
        else init_parameters t2 B H W x2
          ((ActNormS_forward true B H W x1 l1 r1 s).2.2)) =
      (ActNormS_forward true B H W x1 l1 r1 s).2.2
    rw [h1]
    rfl
  · show (if s.is_initialized then s
        else init_parameters false B H W x2 s) = s
    rw [h]
    rfl

/-- A fresh, uninitialized ActNorm state with num_features = 1 and the
default scale 1, for concrete witnesses. -/
noncomputable def sFresh : ActNormState := ⟨1, 1, false, fun _ => 0, fun _ => 0⟩

theorem actnorm_one_shot_witness :
    ((ActNormS_forward true 1 1 1 (fun _ _ _ _ => 1) none false sFresh).2.2.bias =
      fun j => -mean_dim023 1 1 1 (fun _ _ _ _ => 1) j) ∧
    ((ActNormS_forward true 1 1 1 (fun _ _ _ _ => 1) none false sFresh).2.2.logs =
      fun j => Real.log (sFresh.scale / (Real.sqrt (mean_dim023 1 1 1
        (fun i j' p q => ((fun _ _ _ _ => (1 : ℝ)) i j' p q +
          -mean_dim023 1 1 1 (fun _ _ _ _ => 1) j') ^ 2) j) +
        1 / 1000000))) ∧
    (ActNormS_forward true 1 1 1 (fun _ _ _ _ => 1) none false
      sFresh).2.2.is_initialized = true ∧
    (ActNormS_forward true 1 1 1 (fun _ _ _ _ => 2) none false
      ((ActNormS_forward true 1 1 1 (fun _ _ _ _ => 1) none false
        sFresh).2.2)).2.2 =
      (ActNormS_forward true 1 1 1 (fun _ _ _ _ => 1) none false sFresh).2.2 ∧
    (ActNormS_forward false 1 1 1 (fun _ _ _ _ => 2) none false
      sFresh).2.2 = sFresh :=
  actnorm_one_shot_init 1 1 1 (fun _ _ _ _ => 1) (fun _ _ _ _ => 2) sFresh
    none none false false true rfl

lemma mean_center_zero (B H W : ℕ) (hB : 0 < B) (hH : 0 < H) (hW : 0 < W)
    (x : Tensor4) (j : ℕ) (E : ℝ) :
    (∑ i ∈ Finset.range B, ∑ p ∈ Finset.range H, ∑ q ∈ Finset.range W,
      (x i j p q + -mean_dim023 B H W x j) * E) = 0 := by
  have hB' : (0 : ℝ) < B := by exact_mod_cast hB
  have hH' : (0 : ℝ) < H := by exact_mod_cast hH
  have hW' : (0 : ℝ) < W := by exact_mod_cast hW
  have hN : ((B : ℝ) * H * W) ≠ 0 :=
    ne_of_gt (mul_pos (mul_pos hB' hH') hW')
  have t1 : ∀ i : ℕ,
      (∑ p ∈ Finset.range H, ∑ q ∈ Finset.range W,
        (x i j p q + -mean_dim023 B H W x j) * E) =
      (∑ p ∈ Finset.range H, ∑ q ∈ Finset.range W,
        (x i j p q + -mean_dim023 B H W x j)) * E := by
    intro i
    rw [Finset.sum_mul]
    exact Finset.sum_congr rfl fun p _ => (Finset.sum_mul _ _ _).symm
  have t2 : (∑ i ∈ Finset.range B, ∑ p ∈ Finset.range H,
      ∑ q ∈ Finset.range W, (x i j p q + -mean_dim023 B H W x j) * E) =
      (∑ i ∈ Finset.range B, ∑ p ∈ Finset.range H, ∑ q ∈ Finset.range W,
        (x i j p q + -mean_dim023 B H W x j)) * E := by
    rw [Finset.sum_mul]
    exact Finset.sum_congr rfl fun i _ => t1 i
  have t3 : (∑ i ∈ Finset.range B, ∑ p ∈ Finset.range H,
      ∑ q ∈ Finset.range W, (x i j p q + -mean_dim023 B H W x j)) =
      (∑ i ∈ Finset.range B, ∑ p ∈ Finset.range H, ∑ q ∈ Finset.range W,
        x i j p q) + (B : ℝ) * H * W * -mean_dim023 B H W x j := by
    simp only [Finset.sum_add_distrib, Finset.sum_const, Finset.card_range,
      nsmul_eq_mul]
    ring
  have t4 : (∑ i ∈ Finset.range B, ∑ p ∈ Finset.range H,
      ∑ q ∈ Finset.range W, x i j p q) +
      (B : ℝ) * H * W * -mean_dim023 B H W x j = 0 := by
    rw [mean_dim023, mul_neg, mul_div_assoc']
    rw [mul_div_cancel_left₀ _ hN]
    ring
  rw [t2, t3, t4, zero_mul]

/-- C10: immediately after the data-dependent initialization on a batch x
(training mode, fresh state), the forward output y = (x + bias)*exp(logs)
computed on that same batch has exactly zero per-channel mean over the
batch and spatial axes, because bias is set to the negative per-channel
mean of x. -/
theorem actnorm_zero_mean_after_init (B H W : ℕ) (x : Tensor4)
    (s : ActNormState) (h : s.is_initialized = false)
    (hB : 0 < B) (hH : 0 < H) (hW : 0 < W) (j : ℕ) :
    mean_dim023 B H W ((ActNormS_forward true B H W x none false s).1) j = 0 := by
  have e0 : ∀ i p q : ℕ,
      (ActNormS_forward true B H W x none false s).1 i j p q =
      (x i j p q + -mean_dim023 B H W x j) *
        Real.exp ((init_parameters true B H W x s).logs j) := by
    intro i p q
    show (x i j p q +
        (if s.is_initialized then s
         else init_parameters true B H W x s).bias j) *
      Real.exp ((if s.is_initialized then s
         else init_parameters true B H W x s).logs j) = _
    rw [h]
    rfl
  rw [mean_dim023]
  have e1 : (∑ i ∈ Finset.range B, ∑ p ∈ Finset.range H,
      ∑ q ∈ Finset.range W,
        (ActNormS_forward true B H W x none false s).1 i j p q) =
      (∑ i ∈ Finset.range B, ∑ p ∈ Finset.range H, ∑ q ∈ Finset.range W,
        (x i j p q + -mean_dim023 B H W x j) *
          Real.exp ((init_parameters true B H W x s).logs j)) :=
    Finset.sum_congr rfl fun i _ => Finset.sum_congr rfl fun p _ =>
      Finset.sum_congr rfl fun q _ => e0 i p q
  rw [e1, mean_center_zero B H W hB hH hW x j _, zero_div]

theorem actnorm_zero_mean_witness :
    mean_dim023 1 1 1
      ((ActNormS_forward true 1 1 1 (fun _ _ _ _ => 5) none false
        sFresh).1) 0 = 0 :=
  actnorm_zero_mean_after_init 1 1 1 (fun _ _ _ _ => 5) sFresh rfl
    (by decide) (by decide) (by decide) 0

lemma sldj_add_zero (l : Option Sldj) : sldj_add l (fun _ => 0) = l := by
  cases l with
  | none => rfl
  | some f =>
      simp only [sldj_add, Option.map_some', Option.some.injEq]
      funext i
      rw [add_zero]

lemma nn_zero_out (nn : NNP) (H W : ℕ) (x : Tensor4)
    (hw : nn.out_convW = fun _ _ _ _ => 0) (hb : nn.out_convB = fun _ => 0) :
    NN_forward nn H W x = fun _ _ _ _ => 0 := by
  have e : NN_forward nn H W x =
      conv2d nn.cmid 3 3 1 H W nn.out_convW nn.out_convB
        (reluT (anApply nn.out_norm
          (conv2d nn.cmid 1 1 0 H W nn.mid_conv2W (fun _ => 0)
            (reluT (anApply nn.mid_norm
              (conv2d nn.cmid 3 3 1 H W nn.mid_conv1W (fun _ => 0)
                (reluT (conv2d nn.cin 3 3 1 H W nn.in_convW (fun _ => 0)
                  (anApply nn.in_norm x))))))))) := rfl
  rw [e, hw, hb]
  funext i o p q
  simp [conv2d]

/-- C7: with the conditioner's final convolution weights and bias zero (as
nn.init.zeros_ sets them at construction, model.py lines 311-312), the
coupling layer is the identity transform in the forward direction for
every input and contributes exactly 0 to the log-determinant accumulator:
st = 0, hence s = scale * tanh(0) = 0 and t = 0, hence
x_change' = (x_change + 0) * exp(0) = x_change and sum(s) = 0. -/
theorem coupling_identity_at_zero_init (ch H W : ℕ) (cp : CouplingP)
    (x : Tensor4) (ldj : Option Sldj)
    (hw : cp.nn.out_convW = fun _ _ _ _ => 0)
    (hb : cp.nn.out_convB = fun _ => 0) :
    Coupling_forward ch H W cp x ldj false = (x, ldj) := by
  have hst : coup_st ch H W cp x = fun _ _ _ _ => 0 := by
    unfold coup_st
    exact nn_zero_out cp.nn H W (x_idT ch x) hw hb
  have hs : coup_s ch H W cp x = fun _ _ _ _ => 0 := by
    funext i j p q
    simp [coup_s, hst]
  have ht : coup_t ch H W cp x = fun _ _ _ _ => 0 := by
    funext i j p q
    simp [coup_t, hst]
  have hsum : coup_sum ch H W cp x = fun _ => 0 := by
    funext i
    simp [coup_sum, hs]
  have e : Coupling_forward ch H W cp x ldj false =
      (fun i j p q =>
         if j < ch then
           (x i j p q + coup_t ch H W cp x i j p q) *
             Real.exp (coup_s ch H W cp x i j p q)
         else x i j p q,
       sldj_add ldj (coup_sum ch H W cp x)) := rfl
  rw [e, hs, ht, hsum, sldj_add_zero]
  refine Prod.ext ?_ rfl
  funext i j p q
  show (if j < ch then (x i j p q + 0) * Real.exp 0 else x i j p q) =
    x i j p q
  split_ifs with hj
  · rw [add_zero, Real.exp_zero, mul_one]
  · rfl

/-- A coupling layer whose conditioner has all-zero parameters, as freshly
constructed. -/
noncomputable def cpZero : CouplingP := ⟨nnZero, fun _ => 1⟩

theorem coupling_identity_witness :
    Coupling_forward 1 2 2 cpZero (fun _ _ _ _ => 1 / 2) (some fun _ => 0)
      false = ((fun _ _ _ _ => 1 / 2), some fun _ => 0) :=
  coupling_identity_at_zero_init 1 2 2 cpZero (fun _ _ _ _ => 1 / 2)
    (some fun _ => 0) rfl rfl
